import Mathlib

/-
Verification of the vouch core subsystems: the block-auction engine
(bestBuilderBid / builderBid / verifyBidSignature / bidsEqual), the
sync-committee messenger (Prepare / Message / isAggregator), the
sync-committee aggregator (SetBeaconBlockRoot / Aggregate), and the wallet
account manager (ValidatingAccountsForEpoch and the ByIndex variant).

Go machine values are embedded as follows: uint64 counts as Nat, Go int
counters and big.Int scores as Int, byte strings (roots, signatures, raw
BLS keys) as List Nat, Go maps as association lists written through
goInsert (which removes any previous binding for the key, matching map
assignment), nil-able pointers as Option, and fallible calls as Except
with the error payload being the message string.  External collaborators
(signers, beacon node, relays, SHA-256, BLS verification) are passed in as
function-valued parameters, mirroring the interfaces the Go services
consume.
-/

/-! ## Association lists standing for Go maps -/

def lookupKey {α β : Type} [DecidableEq α] : List (α × β) → α → Option β
  | [], _ => none
  | p :: rest, k => if p.1 = k then some p.2 else lookupKey rest k

def eraseKey {α β : Type} [DecidableEq α] (l : List (α × β)) (k : α) : List (α × β) :=
  l.filter (fun p => p.1 ≠ k)

/-- Go map assignment `m[k] = v`: any previous binding for `k` is replaced. -/
def goInsert {α β : Type} [DecidableEq α] (l : List (α × β)) (k : α) (v : β) :
    List (α × β) :=
  (k, v) :: eraseKey l k

/-- Number of entries of the association list carrying key `k`. -/
def countKey {α β : Type} [DecidableEq α] (l : List (α × β)) (k : α) : Nat :=
  (l.filter (fun p => p.1 = k)).length

theorem countKey_goInsert_self {α β : Type} [DecidableEq α]
    (l : List (α × β)) (k : α) (v : β) : countKey (goInsert l k v) k = 1 := by
  simp [countKey, goInsert, eraseKey, List.filter_filter]

theorem filter_key_eraseKey_other {α β : Type} [DecidableEq α]
    (l : List (α × β)) (k k2 : α) (h : k2 ≠ k) :
    List.filter (fun p => decide (p.1 = k2)) (eraseKey l k) =
      List.filter (fun p => decide (p.1 = k2)) l := by
  unfold eraseKey
  rw [List.filter_filter]
  apply List.filter_congr
  intro p _
  by_cases hq : p.1 = k2
  · have hk : p.1 ≠ k := fun hpk => h (hq ▸ hpk)
    simp [hq, hq ▸ hk]
  · simp [hq]

theorem countKey_eraseKey_other {α β : Type} [DecidableEq α]
    (l : List (α × β)) (k k2 : α) (h : k2 ≠ k) :
    countKey (eraseKey l k) k2 = countKey l k2 := by
  unfold countKey
  rw [filter_key_eraseKey_other l k k2 h]

theorem countKey_goInsert_other {α β : Type} [DecidableEq α]
    (l : List (α × β)) (k k2 : α) (v : β) (h : k2 ≠ k) :
    countKey (goInsert l k v) k2 = countKey l k2 := by
  have hk : ¬ (k = k2) := fun hkk => h hkk.symm
  simp only [countKey, goInsert, List.filter_cons, decide_eq_true_eq, hk, if_false]
  exact countKey_eraseKey_other l k k2 h

theorem lookupKey_goInsert_self {α β : Type} [DecidableEq α]
    (l : List (α × β)) (k : α) (v : β) : lookupKey (goInsert l k v) k = some v := by
  simp [lookupKey, goInsert]

theorem lookupKey_eraseKey_other {α β : Type} [DecidableEq α]
    (l : List (α × β)) (k k2 : α) (h : k2 ≠ k) :
    lookupKey (eraseKey l k) k2 = lookupKey l k2 := by
  induction l with
  | nil => rfl
  | cons p rest ih =>
    unfold eraseKey at ih ⊢
    simp only [decide_not] at ih
    by_cases hp : p.1 = k
    · have hk2 : ¬ (k = k2) := fun hkk => h hkk.symm
      simp [List.filter_cons, hp, lookupKey, hk2, h, ih]
    · by_cases hq : p.1 = k2
      · simp [List.filter_cons, hp, lookupKey, hq, h]
      · simp [List.filter_cons, hp, lookupKey, hq, h, ih]

theorem lookupKey_goInsert_other {α β : Type} [DecidableEq α]
    (l : List (α × β)) (k k2 : α) (v : β) (h : k2 ≠ k) :
    lookupKey (goInsert l k v) k2 = lookupKey l k2 := by
  simp only [lookupKey, goInsert]
  rw [if_neg (fun hkk => h hkk.symm)]
  exact lookupKey_eraseKey_other l k k2 h

theorem lookupKey_eraseKey_self {α β : Type} [DecidableEq α]
    (l : List (α × β)) (k : α) : lookupKey (eraseKey l k) k = none := by
  induction l with
  | nil => rfl
  | cons p rest ih =>
    by_cases hp : p.1 = k
    · simpa [eraseKey, List.filter_cons, hp] using ih
    · simpa [eraseKey, List.filter_cons, hp, lookupKey] using ih

/-! ## Block-auction engine (services/blockrelay/standard, bestBuilderBid and helpers)

Scores are big.Int, embedded as Int.  Byte strings are List Nat.  A
versioned signed builder bid is embedded by the observations the auction
code makes of it; each fallible accessor is an Option field, none standing
for the accessor returning an error. -/

abbrev Root : Type := List Nat

/-- The observations builderBid and verifyBidSignature make of a
VersionedSignedBuilderBid.  none in an accessor field means the Go accessor
returns an error.  marshalOk models whether json.Marshal of the bid
succeeds (used only on the trace-logging path). -/
structure BidData where
  isEmpty : Bool
  value : Option Int
  feeRecipient : Option (List Nat)
  timestamp : Option Int
  messageRoot : Option Root
  headerRoot : Option Root
  signature : Option (List Nat)
  marshalOk : Bool
deriving DecidableEq

/-- zeroExecutionAddress: the all-zero 20-byte execution address. -/
def zeroExecutionAddress : List Nat := List.replicate 20 0

/-- bidsEqual from the source: two bids are equal iff their header
hash-tree-roots both compute and are byte-equal. -/
def bidsEqual (bid1 bid2 : BidData) : Bool :=
  match bid1.headerRoot, bid2.headerRoot with
  | some r1, some r2 => decide (r1 = r2)
  | _, _ => false

/-- builderBidResponse from the source: provider address, optional bid,
and score. -/
structure BidResp where
  provider : String
  bid : Option BidData
  score : Int
deriving DecidableEq

/-- State of the fan-in loops in bestBuilderBid.  Counters are Go ints
(Int); requests is fixed at len(proposerConfig.Relays) before the loops. -/
structure AuctionState where
  requests : Int
  responded : Int
  errored : Int
  timedOut : Int
  softTimedOut : Int
  bestScore : Int
  resBid : Option BidData
  providers : List BidResp
  values : List (String × Int)
deriving DecidableEq

def initAuctionState (requests : Int) : AuctionState :=
  { requests := requests, responded := 0, errored := 0, timedOut := 0, softTimedOut := 0,
    bestScore := 0, resBid := none, providers := [], values := [] }

/-- The body of the respCh case, shared verbatim by loop 1 and loop 2 of
bestBuilderBid: count the response; on a nil bid continue (skipping the
values write); otherwise run the scoring switch and then record
values[provider] = score. -/
def processResp (st : AuctionState) (r : BidResp) : AuctionState :=
  let st1 := { st with responded := st.responded + 1 }
  match r.bid with
  | none => st1
  | some bid =>
    let st2 :=
      if st1.bestScore < r.score then
        { st1 with resBid := some bid, bestScore := r.score, providers := [r] }
      else
        match st1.resBid with
        | some curBid =>
          if r.score = st1.bestScore ∧ bidsEqual curBid bid = true then
            { st1 with providers := st1.providers ++ [r] }
          else st1
        | none => st1
    { st2 with values := goInsert st2.values r.provider r.score }

/-- Events the select statements of the two fan-in loops can take: a
response on respCh, an error on errCh, the soft deadline firing (loop 1),
or the hard deadline firing (loop 2). -/
inductive AuctionEv where
  | resp (r : BidResp)
  | err
  | soft
  | hard
deriving DecidableEq

def auctionStep (st : AuctionState) : AuctionEv → AuctionState
  | .resp r => processResp st r
  | .err => { st with errored := st.errored + 1 }
  | .soft =>
    let st1 :=
      if 0 < st.responded then
        { st with timedOut := st.requests - st.responded - st.errored }
      else st
    { st1 with softTimedOut := st1.requests - st1.responded - st1.errored - st1.timedOut }
  | .hard => { st with timedOut := st.requests - st.responded - st.errored }

/-- The auction state after the fan-in loops of bestBuilderBid have
processed the given sequence of events, starting from the freshly
initialised counters. -/
def runAuction (requests : Int) (evs : List AuctionEv) : AuctionState :=
  evs.foldl auctionStep (initAuctionState requests)

/-- The quantity governing the exit of loop 1:
responded + errored + timedOut + softTimedOut. -/
def loop1Accounted (st : AuctionState) : Int :=
  st.responded + st.errored + st.timedOut + st.softTimedOut

/-- Launch-phase view of one relay of the proposer configuration:
whether util.FetchBuilderClient succeeds and whether the client implements
builderclient.BuilderBidProvider. -/
structure RelayLaunch where
  clientOk : Bool
  isProvider : Bool
deriving DecidableEq

/-- requests as the source computes it: len(proposerConfig.Relays); the
launch loop of bestBuilderBid never modifies it, it only continues past
relays that fail to launch. -/
def requestsCode (relays : List RelayLaunch) : Int :=
  (relays.length : Int)

/-- Stated from the claim for comparison: the expected responder count
with every relay whose client cannot be obtained or does not implement
the bid-provider capability decremented up front. -/
def requestsClaimed (relays : List RelayLaunch) : Int :=
  relays.foldl (fun n r => if r.clientOk && r.isProvider then n else n - 1)
    ((relays.length : Int))

/-- The relays for which a builderBid task is actually launched. -/
def launchedRelays (relays : List RelayLaunch) : List RelayLaunch :=
  relays.filter (fun r => r.clientOk && r.isProvider)

/-! ## Relay caller: builderBid and verifyBidSignature -/

/-- Raw 48-byte BLS public key bytes. -/
abbrev RawPK : Type := List Nat

/-- Relay entry of the proposer configuration as builderBid and
verifyBidSignature read it. -/
structure RelayConfig where
  publicKey : Option RawPK
  minValue : Int
  grace : Nat
deriving DecidableEq

/-- A builder-bid provider: its address, its advertised public key, and
the outcome of BuilderBid for the call under consideration (error, nil
bid, or a bid). -/
structure BidProvider where
  address : String
  pubkey : Option RawPK
  builderBid : Except String (Option BidData)

/-- The cryptographic collaborators of verifyBidSignature, passed in as
the Go code consumes them: BLS key and signature parsing, the
hash-tree-root of phase0.SigningData, and BLS verification.  PKey is the
parsed e2types.BLSPublicKey. -/
structure BidCrypto (PKey : Type) where
  parseKey : RawPK → Option PKey
  parseSig : List Nat → Option (List Nat)
  signingRoot : Root → List Nat → Option Root
  verify : PKey → Root → List Nat → Bool

/-- Service state verifyBidSignature reads: the memoized relay pubkeys and
the application builder domain; plus the chain-time and logging state
builderBid reads. -/
structure RelayService (PKey : Type) where
  relayPubkeys : List (RawPK × PKey)
  applicationBuilderDomain : List Nat
  startOfSlot : Nat → Int
  traceEnabled : Bool

/-- The tail of verifyBidSignature once a raw public key has been chosen:
memoized parse of the key, hash of the bid message, hash of the signing
data, parse of the signature, BLS verification. -/
def verifyWithKey {PKey : Type} [DecidableEq PKey] (s : RelayService PKey)
    (crypto : BidCrypto PKey) (relayPubkey : RawPK) (bid : BidData) :
    Except String Bool :=
  let cached : Option PKey :=
    match lookupKey s.relayPubkeys relayPubkey with
    | some pk => some pk
    | none => crypto.parseKey relayPubkey
  match cached with
  | none => .error "invalid public key supplied with bid"
  | some pubkey =>
    match bid.messageRoot with
    | none => .error "failed to hash bid message"
    | some dataRoot =>
      match crypto.signingRoot dataRoot s.applicationBuilderDomain with
      | none => .error "failed to hash signing data"
      | some sroot =>
        match bid.signature with
        | none => .error "failed to obtain bid signature"
        | some rawSig =>
          match crypto.parseSig rawSig with
          | none => .error "invalid signature"
          | some sig => .ok (crypto.verify pubkey sroot sig)

/-- verifyBidSignature from the source: the raw key is the relay
configuration public key when present, else the provider public key; when
neither is available, validation is skipped and the bid counts as
verified. -/
def verifyBidSignature {PKey : Type} [DecidableEq PKey] (s : RelayService PKey)
    (crypto : BidCrypto PKey) (relayConfig : RelayConfig) (bid : BidData)
    (provider : BidProvider) : Except String Bool :=
  match relayConfig.publicKey with
  | some relayPubkey => verifyWithKey s crypto relayPubkey bid
  | none =>
    match provider.pubkey with
    | none => .ok true
    | some relayPubkey => verifyWithKey s crypto relayPubkey bid

/-- What one builderBid task sends: a response on respCh or an error on
errCh. -/
inductive RelaySignal where
  | resp (r : BidResp)
  | err
deriving DecidableEq

/-- builderBid from the source: fetch the bid then validate it, mapping
each outcome to respCh or errCh.  A nil bid and a value below the relay
minimum both yield a zero-score response carrying no bid. -/
def builderBidRun {PKey : Type} [DecidableEq PKey] (s : RelayService PKey)
    (crypto : BidCrypto PKey) (slot : Nat) (relayConfig : RelayConfig)
    (provider : BidProvider) : RelaySignal :=
  match provider.builderBid with
  | .error _ => .err
  | .ok none => .resp { provider := provider.address, bid := none, score := 0 }
  | .ok (some bid) =>
    if s.traceEnabled ∧ bid.marshalOk = false then .err
    else if bid.isEmpty then .err
    else
      match bid.value with
      | none => .err
      | some value =>
        if value = 0 then .err
        else if value < relayConfig.minValue then
          .resp { provider := provider.address, bid := none, score := 0 }
        else
          match bid.feeRecipient with
          | none => .err
          | some feeRecipient =>
            if feeRecipient = zeroExecutionAddress then .err
            else
              match bid.timestamp with
              | none => .err
              | some timestamp =>
                if timestamp ≠ s.startOfSlot slot then .err
                else
                  match verifyBidSignature s crypto relayConfig bid provider with
                  | .error _ => .err
                  | .ok verified =>
                    if verified then
                      .resp { provider := provider.address, bid := some bid, score := value }
                    else .err

/-! ## Sync-committee messenger (services/synccommitteemessenger/standard) -/

/-- binary.LittleEndian.Uint64 over the first 8 bytes of a byte string:
byte 0 is least significant. -/
def littleEndianUint64 (bytes : List Nat) : Nat :=
  (bytes.take 8).foldr (fun b acc => b + 256 * acc) 0

/-- Chain-spec constants the messenger service is constructed with. -/
structure MsgrService where
  slotsPerEpoch : Nat
  syncCommitteeSize : Nat
  syncCommitteeSubnetCount : Nat
  targetAggregatorsPerSyncCommittee : Nat
deriving DecidableEq

/-- An altair.SyncCommitteeMessage: slot, beacon block root, validator
index, signature. -/
structure SyncMsg where
  slot : Nat
  beaconBlockRoot : Root
  validatorIndex : Nat
  signature : List Nat
deriving DecidableEq

/-- Collaborators of the messenger, as consumed by the Go service.
Accounts are opaque handles (Nat).  sha is crypto/sha256 over the
signature bytes. -/
structure MsgrDeps where
  sha : List Nat → List Nat
  signSyncCommitteeSelection : Nat → Nat → Nat → Except String (List Nat)
  signSyncCommitteeRoot : Nat → Nat → Root → Except String (List Nat)
  beaconBlockRoot : String → Except String (Option Root)
  submitSyncCommitteeMessages : List SyncMsg → Option String
  slotToEpoch : Nat → Nat

/-- isAggregator from the source: modulo is size / subnetCount / target,
clamped below at 1; the signed slot is hashed and the first 8 bytes,
little-endian, are reduced mod modulo. -/
def isAggregator (s : MsgrService) (deps : MsgrDeps) (account slot subcommitteeIndex : Nat) :
    Except String (Bool × List Nat) :=
  let modulo := s.syncCommitteeSize / s.syncCommitteeSubnetCount /
    s.targetAggregatorsPerSyncCommittee
  let modulo := if modulo < 1 then 1 else modulo
  match deps.signSyncCommitteeSelection account slot subcommitteeIndex with
  | .error e => .error ("failed to sign the slot: " ++ e)
  | .ok signature =>
    let hash := deps.sha signature
    .ok (decide (littleEndianUint64 (hash.take 8) % modulo = 0), signature)

/-- Modelled from the spec: the sync-committee-messenger Duty record is
declared outside src (package synccommitteemessenger); per the spec it
carries the slot, the validator indices with duty, the contribution
indices per validator, and the account handle per validator. -/
structure MsgrDuty where
  slot : Nat
  contributionIndices : List (Nat × List Nat)
  accounts : Nat → Nat
  validatorIndices : List Nat

/-- Modelled from the spec: the Duty accessor ValidatorIndices returns
the record field; it is a Go pointer-receiver accessor, so invoking it on
the nil pointer produced by a failed type assertion faults (nil
dereference) instead of returning a value. -/
def dutyValidatorIndices : Option MsgrDuty → Except Unit (List Nat)
  | none => .error ()
  | some d => .ok d.validatorIndices

/-- The interface value handed to Prepare and Message: either a pointer
to a messenger Duty, or a value of any other dynamic type, for which the
type assertion yields (nil, false). -/
inductive HandlerInput where
  | duty (d : MsgrDuty)
  | other

/-- The nil-able Duty pointer the type assertion produces. -/
def assertedDuty : HandlerInput → Option MsgrDuty
  | .duty d => some d
  | .other => none

/-- Outcome of Prepare, separating the runtime fault of the wrong-type
branch (which evaluates len(duty.ValidatorIndices()) on a nil duty) from
error returns and success. -/
inductive PrepareOutcome where
  | nilDeref
  | invalidData
  | signError (e : String)
  | ok (aggregators : List (Nat × Nat × List Nat))
deriving DecidableEq

/-- The dedup Go performs through the subcommittees map: distinct
subcommittee values of the contribution indices, in first-seen order. -/
def dedupNat (l : List Nat) : List Nat :=
  l.foldl (fun acc x => if x ∈ acc then acc else acc ++ [x]) []

/-- The per-validator body of Prepare: compute the distinct subcommittees
from the contribution indices, then consult isAggregator for each and
record the selection signature when the validator is an aggregator. -/
def prepareValidator (s : MsgrService) (deps : MsgrDeps) (d : MsgrDuty) (vi : Nat) :
    Except String (List (Nat × Nat × List Nat)) :=
  let contribIdxs := (lookupKey d.contributionIndices vi).getD []
  let subcommittees := dedupNat (contribIdxs.map
    (fun ci => ci / (s.syncCommitteeSize / s.syncCommitteeSubnetCount)))
  subcommittees.foldl
    (fun acc subcommittee =>
      match acc with
      | .error e => .error e
      | .ok sofar =>
        match isAggregator s deps (d.accounts vi) d.slot subcommittee with
        | .error e => .error ("failed to calculate if this is an aggregator: " ++ e)
        | .ok (isAgg, sig) =>
          .ok (if isAgg then sofar ++ [(vi, subcommittee, sig)] else sofar))
    (.ok [])

/-- Prepare from the source: the wrong-type branch faults on the nil
duty; otherwise every validator of the duty is processed and the
aggregator selections collected. -/
def prepareRun (s : MsgrService) (deps : MsgrDeps) (input : HandlerInput) : PrepareOutcome :=
  match assertedDuty input with
  | none =>
    match dutyValidatorIndices none with
    | .error _ => .nilDeref
    | .ok _ => .invalidData
  | some d =>
    match
      d.validatorIndices.foldl
        (fun acc vi =>
          match acc with
          | .error e => .error e
          | .ok sofar =>
            match prepareValidator s deps d vi with
            | .error e => .error e
            | .ok l => .ok (sofar ++ l))
        (Except.ok []) with
    | .error e => .signError e
    | .ok l => .ok l

/-- Branch taken by Message, separating the wrong-type fault, the two
root-fetch failures, submission failure and success. -/
inductive MessageOutcome where
  | nilDeref
  | invalidData
  | rootFetchError (e : String)
  | rootNil
  | submitError (e : String)
  | okMsgs (msgs : List SyncMsg)
deriving DecidableEq

/-- pkg/errors.Wrap: annotates a non-nil error and returns nil when the
wrapped error is nil. -/
def wrapErr (e : Option String) (msg : String) : Option String :=
  match e with
  | none => none
  | some s => some (msg ++ ": " ++ s)

/-- The Go error value Message returns on each branch, computed exactly
as the source builds it; the rootNil branch wraps the fetch error, which
is nil there, so pkg/errors.Wrap yields nil.  The nilDeref branch never
returns at all. -/
def messageError : MessageOutcome → Option String
  | .nilDeref => none
  | .invalidData => some "passed invalid data structure"
  | .rootFetchError e => wrapErr (some e) "failed to obtain beacon block root"
  | .rootNil => wrapErr none "empty beacon block root obtained"
  | .submitError e => wrapErr (some e) "failed to submit sync committee messages"
  | .okMsgs _ => none

/-- Everything observable of one Message run: the branch taken, the
slot-to-root cache afterwards, the batch handed to the submitter (none if
the submitter was never called), and the metric status recorded. -/
structure MessageResult where
  outcome : MessageOutcome
  cache : List (Nat × Root)
  submitted : Option (List SyncMsg)
  metric : Option String

/-- The parallel signing phase of Message: one message per validator
index of the contribution indices, each signed for epoch
slotToEpoch(slot + 1) over the fetched root; individual signer failures
are logged and dropped. -/
def messageMsgs (deps : MsgrDeps) (d : MsgrDuty) (root : Root) : List SyncMsg :=
  (d.contributionIndices.map Prod.fst).filterMap (fun vi =>
    match deps.signSyncCommitteeRoot (d.accounts vi) (deps.slotToEpoch (d.slot + 1))
        root with
    | .error _ => none
    | .ok sig =>
      some { slot := d.slot, beaconBlockRoot := root, validatorIndex := vi,
             signature := sig })

/-- Message from the source: fetch the head root (failing on error and on
nil), hand it to the aggregator cache for the duty slot, sign one message
per validator index of the contribution indices dropping individual
failures, and submit the batch. -/
def messageRun (deps : MsgrDeps) (cache : List (Nat × Root)) (input : HandlerInput) :
    MessageResult :=
  match assertedDuty input with
  | none =>
    match dutyValidatorIndices none with
    | .error _ => { outcome := .nilDeref, cache := cache, submitted := none, metric := none }
    | .ok _ =>
      { outcome := .invalidData, cache := cache, submitted := none, metric := some "failed" }
  | some d =>
    match deps.beaconBlockRoot "head" with
    | .error e =>
      { outcome := .rootFetchError e, cache := cache, submitted := none,
        metric := some "failed" }
    | .ok none =>
      { outcome := .rootNil, cache := cache, submitted := none, metric := some "failed" }
    | .ok (some root) =>
      match deps.submitSyncCommitteeMessages (messageMsgs deps d root) with
      | some e =>
        { outcome := .submitError e, cache := goInsert cache d.slot root,
          submitted := some (messageMsgs deps d root), metric := some "failed" }
      | none =>
        { outcome := .okMsgs (messageMsgs deps d root), cache := goInsert cache d.slot root,
          submitted := some (messageMsgs deps d root), metric := some "succeeded" }

/-! ## Sync-committee aggregator (part of package standard, Aggregate) -/

/-- SetBeaconBlockRoot from the source: record the root for the slot in
the aggregator cache (a Go map write). -/
def setBeaconBlockRoot (cache : List (Nat × Root)) (slot : Nat) (root : Root) :
    List (Nat × Root) :=
  goInsert cache slot root

/-- The root-acquisition prologue of Aggregate: take the cached root for
the slot and delete the entry; on a miss fall back to fetching "head"
from the beacon node, failing on a fetch error or a nil root.  The first
component is the root obtained (none meaning Aggregate returns having
recorded a failure), the second the cache afterwards. -/
def takeBeaconBlockRoot (cache : List (Nat × Root)) (slot : Nat)
    (fetchHead : Except String (Option Root)) : Option Root × List (Nat × Root) :=
  match lookupKey cache slot with
  | some root => (some root, eraseKey cache slot)
  | none =>
    match fetchHead with
    | .error _ => (none, cache)
    | .ok none => (none, cache)
    | .ok (some root) => (some root, cache)

/-- A sync committee contribution, opaque to the aggregator except for
identity. -/
abbrev Contribution : Type := Nat

/-- altair.ContributionAndProof as Aggregate builds it. -/
structure ContributionAndProof where
  aggregatorIndex : Nat
  contribution : Contribution
  selectionProof : List Nat
deriving DecidableEq

/-- altair.SignedContributionAndProof. -/
structure SignedContributionAndProof where
  message : ContributionAndProof
  signature : List Nat
deriving DecidableEq

/-- Modelled from the spec: the sync-committee-aggregator Duty record is
declared outside src (package synccommitteeaggregator); per the spec it
carries the slot, the validator indices, the selection proofs per
(validator, subcommittee) populated during Prepare, and the account
handle per validator. -/
structure AggDuty where
  slot : Nat
  validatorIndices : List Nat
  selectionProofs : Nat → List (Nat × List Nat)
  accounts : Nat → Nat

/-- Collaborators of the aggregator. -/
structure AggDeps where
  beaconBlockRoot : String → Except String (Option Root)
  syncCommitteeContribution : Nat → Nat → Root → Except String (Option Contribution)
  signContributionAndProof : Nat → ContributionAndProof → Except String (List Nat)
  submitSyncCommitteeContributions : List SignedContributionAndProof → Option String

/-- The (validatorIndex, subcommitteeIndex, selectionProof) triples the
nested loops of Aggregate visit, in visit order. -/
def aggPairs (duty : AggDuty) : List (Nat × Nat × List Nat) :=
  (duty.validatorIndices.map
    (fun vi => (duty.selectionProofs vi).map (fun p => (vi, p.1, p.2)))).flatten

/-- The body of the nested loops of Aggregate: for each triple fetch the
contribution (failing the whole call on error or nil), build the
contribution-and-proof, sign it (failing the whole call on error), and
append; the first failure aborts. -/
def buildSignedCAPs (deps : AggDeps) (slot : Nat) (root : Root) (accounts : Nat → Nat) :
    List (Nat × Nat × List Nat) → Except String (List SignedContributionAndProof)
  | [] => .ok []
  | (vi, si, proof) :: rest =>
    match deps.syncCommitteeContribution slot si root with
    | .error e => .error ("failed to obtain sync committee contribution: " ++ e)
    | .ok none => .error "returned empty contribution"
    | .ok (some contribution) =>
      let cap : ContributionAndProof :=
        { aggregatorIndex := vi, contribution := contribution, selectionProof := proof }
      match deps.signContributionAndProof (accounts vi) cap with
      | .error e => .error ("failed to obtain signature of contribution and proof: " ++ e)
      | .ok sig =>
        match buildSignedCAPs deps slot root accounts rest with
        | .error e => .error e
        | .ok sofar => .ok ({ message := cap, signature := sig } :: sofar)

/-- Observable outcome of one Aggregate run: the batch handed to the
submitter (none when the submitter was never invoked), the cache
afterwards, and the metric status. -/
structure AggResult where
  submitted : Option (List SignedContributionAndProof)
  cache : List (Nat × Root)
  metric : String

/-- Aggregate from the source: acquire the root (cache take or head
fallback), build the full batch aborting on the first failure, and only
then submit it. -/
def aggregateRun (deps : AggDeps) (cache : List (Nat × Root)) (duty : AggDuty) : AggResult :=
  match takeBeaconBlockRoot cache duty.slot (deps.beaconBlockRoot "head") with
  | (none, cache2) => { submitted := none, cache := cache2, metric := "failed" }
  | (some root, cache2) =>
    match buildSignedCAPs deps duty.slot root duty.accounts (aggPairs duty) with
    | .error _ => { submitted := none, cache := cache2, metric := "failed" }
    | .ok batch =>
      match deps.submitSyncCommitteeContributions batch with
      | some _ => { submitted := some batch, cache := cache2, metric := "failed" }
      | none => { submitted := some batch, cache := cache2, metric := "succeeded" }

/-- Whether one loop iteration of Aggregate fails for the given triple:
the contribution fetch errors or returns nil, or the signer errors. -/
def aggPairFails (deps : AggDeps) (slot : Nat) (root : Root) (accounts : Nat → Nat)
    (p : Nat × Nat × List Nat) : Bool :=
  match deps.syncCommitteeContribution slot p.2.1 root with
  | .error _ => true
  | .ok none => true
  | .ok (some contribution) =>
    match deps.signContributionAndProof (accounts p.1)
        { aggregatorIndex := p.1, contribution := contribution,
          selectionProof := p.2.2 } with
    | .error _ => true
    | .ok _ => false

/-- The signed object a non-failing triple contributes to the batch. -/
def aggPairSigned (deps : AggDeps) (slot : Nat) (root : Root) (accounts : Nat → Nat)
    (p : Nat × Nat × List Nat) : Option SignedContributionAndProof :=
  match deps.syncCommitteeContribution slot p.2.1 root with
  | .error _ => none
  | .ok none => none
  | .ok (some contribution) =>
    let cap : ContributionAndProof :=
      { aggregatorIndex := p.1, contribution := contribution, selectionProof := p.2.2 }
    match deps.signContributionAndProof (accounts p.1) cap with
    | .error _ => none
    | .ok sig => some { message := cap, signature := sig }

/-! ## Wallet account manager (services/accountmanager/wallet) -/

/-- Validator record as the account manager sees it: the public key used
to look the account back up, and an opaque payload the external
state-evaluation function may inspect. -/
structure WalletValidator where
  publicKey : RawPK
  payload : Nat
deriving DecidableEq

/-- api.ValidatorState of go-eth2-client. -/
inductive ValidatorState where
  | unknown
  | pendingInitialized
  | pendingQueued
  | activeOngoing
  | activeExiting
  | activeSlashed
  | exitedUnslashed
  | exitedSlashed
  | withdrawalPossible
  | withdrawalDone
deriving DecidableEq

/-- The wallet service state the validating-accounts queries read. -/
structure WalletService where
  accounts : List (RawPK × Nat)
  farFutureEpoch : Nat

/-- Collaborators: the validators manager keyed query and the external
api.ValidatorToState evaluation. -/
structure WalletDeps where
  validatorsByPubKey : List RawPK → List (Nat × WalletValidator)
  validatorToState : WalletValidator → Nat → Nat → ValidatorState

/-- ValidatingAccountsForEpoch from the source: walk the validators
returned for our account public keys and keep those whose state at the
epoch is active-ongoing or active-exiting, mapping the index to the
account found for the validator public key. -/
def validatingAccountsForEpoch (s : WalletService) (deps : WalletDeps) (epoch : Nat) :
    List (Nat × Option Nat) :=
  let pubKeys := s.accounts.map Prod.fst
  let validators := deps.validatorsByPubKey pubKeys
  validators.foldl
    (fun acc iv =>
      let state := deps.validatorToState iv.2 epoch s.farFutureEpoch
      if state = .activeOngoing ∨ state = .activeExiting then
        goInsert acc iv.1 (lookupKey s.accounts iv.2.publicKey)
      else acc)
    []

/-- ValidatingAccountsForEpochByIndex from the source: as above but a
validator index absent from the requested index list is skipped before
the state is evaluated. -/
def validatingAccountsForEpochByIndex (s : WalletService) (deps : WalletDeps) (epoch : Nat)
    (indices : List Nat) : List (Nat × Option Nat) :=
  let pubKeys := s.accounts.map Prod.fst
  let validators := deps.validatorsByPubKey pubKeys
  validators.foldl
    (fun acc iv =>
      if iv.1 ∈ indices then
        let state := deps.validatorToState iv.2 epoch s.farFutureEpoch
        if state = .activeOngoing ∨ state = .activeExiting then
          goInsert acc iv.1 (lookupKey s.accounts iv.2.publicKey)
        else acc
      else acc)
    []

/-! ## Concrete fixtures -/

/-- A one-relay proposer configuration whose builder client cannot be
obtained. -/
def launchFailConfig : List RelayLaunch := [{ clientOk := false, isProvider := true }]

/-- Mainnet-like chain constants. -/
def sampleMsgrService : MsgrService :=
  { slotsPerEpoch := 32, syncCommitteeSize := 512, syncCommitteeSubnetCount := 4,
    targetAggregatorsPerSyncCommittee := 16 }

/-- Messenger collaborators whose beacon node answers the head-root query
with no error and a nil root. -/
def nilRootDeps : MsgrDeps :=
  { sha := fun l => l,
    signSyncCommitteeSelection := fun _ _ _ => .ok [1],
    signSyncCommitteeRoot := fun _ _ _ => .ok [2],
    beaconBlockRoot := fun _ => .ok none,
    submitSyncCommitteeMessages := fun _ => none,
    slotToEpoch := fun slot => slot / 32 }

/-- A small well-formed messenger duty. -/
def sampleMsgrDuty : MsgrDuty :=
  { slot := 7, contributionIndices := [(1, [3])], accounts := fun _ => 0,
    validatorIndices := [1] }

/-! ## Claims -/

/-- Claim C1: the claim says bestBuilderBid decrements the expected
responder count up front for every relay whose builder client cannot be
obtained or does not implement the bid-provider capability, so that the
fan-in loops exit without waiting on the deadlines for relays that never
launched a task.  The source keeps requests = len(proposerConfig.Relays)
and merely continues past such relays: with one failing relay no bid task
is launched, yet requests stays 1, the loop-1 exit quantity is 0 before
any deadline event, and only the soft-deadline event brings it to
requests. -/
theorem bestBuilderBid_requests_kept_at_relay_count :
    requestsCode launchFailConfig = 1 ∧
    requestsClaimed launchFailConfig = 0 ∧
    launchedRelays launchFailConfig = [] ∧
    loop1Accounted (runAuction (requestsCode launchFailConfig) []) = 0 ∧
    loop1Accounted (runAuction (requestsCode launchFailConfig) [AuctionEv.soft]) =
      requestsCode launchFailConfig := by
  refine ⟨rfl, rfl, rfl, rfl, ?_⟩
  decide

/-- Claim C2: the claim says Message returns a non-nil error when the
head-root fetch succeeds but yields a nil root.  The source takes the
rootNil branch — it records the failed metric, writes nothing to the
aggregator cache and never signs or submits — but builds its return error
as errors.Wrap(err, "empty beacon block root obtained") with err nil, and
pkg/errors.Wrap of nil is nil, so the error returned is nil. -/
theorem message_nil_root_returns_nil_error :
    (messageRun nilRootDeps [] (HandlerInput.duty sampleMsgrDuty)).outcome =
      MessageOutcome.rootNil ∧
    messageError MessageOutcome.rootNil = none ∧
    (messageRun nilRootDeps [] (HandlerInput.duty sampleMsgrDuty)).cache = [] ∧
    (messageRun nilRootDeps [] (HandlerInput.duty sampleMsgrDuty)).submitted = none ∧
    (messageRun nilRootDeps [] (HandlerInput.duty sampleMsgrDuty)).metric =
      some "failed" :=
  ⟨rfl, rfl, rfl, rfl, rfl⟩

/-- Claim C9: the claim says Prepare and Message handle a wrong-shaped
input by recording a failure metric and returning the "passed invalid
data structure" error, executing the branch safely.  In the source the
wrong-type branch evaluates len(duty.ValidatorIndices()) on the nil duty
produced by the failed type assertion; the Duty accessor dereferences its
nil receiver, so both handlers fault before either the metric call or the
error return is reached. -/
theorem handlers_wrong_type_nil_deref :
    prepareRun sampleMsgrService nilRootDeps HandlerInput.other = PrepareOutcome.nilDeref ∧
    (messageRun nilRootDeps [] HandlerInput.other).outcome = MessageOutcome.nilDeref ∧
    dutyValidatorIndices none = Except.error () :=
  ⟨rfl, rfl, rfl⟩

/-- The values map is untouched by a nil-bid response and written at the
provider key by every non-nil-bid response, whatever the scoring switch
does. -/
theorem processResp_values (st : AuctionState) (r : BidResp) :
    (processResp st r).values =
      match r.bid with
      | none => st.values
      | some _ => goInsert st.values r.provider r.score := by
  unfold processResp
  cases hrb : r.bid with
  | none => simp [hrb]
  | some bid =>
    simp only [hrb]
    by_cases hlt : st.bestScore < r.score
    · simp [hlt]
    · simp only [hlt, if_false]
      cases hres : st.resBid with
      | none => simp
      | some curBid =>
        by_cases hcond : r.score = st.bestScore ∧ bidsEqual curBid bid = true
        · simp [hcond]
        · simp [hcond]

/-- Whether an event is a non-error response from provider `p` carrying a
non-nil bid. -/
def isNonNilRespFrom (p : String) : AuctionEv → Bool
  | .resp r => decide (r.provider = p) && r.bid.isSome
  | _ => false

theorem foldl_values_count (p : String) :
    ∀ (evs : List AuctionEv) (st : AuctionState),
      countKey (evs.foldl auctionStep st).values p =
        if evs.any (isNonNilRespFrom p) then 1 else countKey st.values p := by
  intro evs
  induction evs with
  | nil => intro st; simp
  | cons e rest ih =>
    intro st
    rw [List.foldl_cons, ih, List.any_cons]
    by_cases he : isNonNilRespFrom p e = true
    · by_cases hrest : rest.any (isNonNilRespFrom p) = true
      · simp [he, hrest]
      · simp only [he, hrest, Bool.true_or, if_true, Bool.or_false, if_false]
        cases e with
        | resp r =>
          simp only [isNonNilRespFrom, Bool.and_eq_true, decide_eq_true_eq,
            Option.isSome_iff_exists] at he
          obtain ⟨hp, bid, hbid⟩ := he
          simp only [auctionStep, processResp_values, hbid]
          rw [hp]
          exact countKey_goInsert_self st.values p r.score
        | err => simp [isNonNilRespFrom] at he
        | soft => simp [isNonNilRespFrom] at he
        | hard => simp [isNonNilRespFrom] at he
    · simp only [he, Bool.false_or]
      have hvals : countKey (auctionStep st e).values p = countKey st.values p := by
        cases e with
        | resp r =>
          simp only [auctionStep, processResp_values]
          cases hrb : r.bid with
          | none => rfl
          | some bid =>
            simp only [isNonNilRespFrom, hrb, Bool.and_eq_true, decide_eq_true_eq,
              Option.isSome_some, and_true] at he
            exact countKey_goInsert_other st.values r.provider p r.score
              (fun hq => he hq.symm)
        | err => rfl
        | soft =>
          simp only [auctionStep]
          split <;> rfl
        | hard => rfl
      rw [hvals]

/-- Claim C3 (amended): for every completed auction, values contains
exactly one entry per relay that produced a processed non-error response
carrying a NON-NIL bid, and no entry for a relay that declined with a nil
bid or whose bid fell below the relay minimum (both of which respond with
a zero score and a nil bid), errored, or never responded.  The nil-bid
continue in both fan-in loops of bestBuilderBid skips the
values[provider] = score write. -/
theorem auction_values_entries (requests : Int) (evs : List AuctionEv) (p : String) :
    countKey (runAuction requests evs).values p =
      if evs.any (isNonNilRespFrom p) then 1 else 0 := by
  unfold runAuction
  rw [foldl_values_count p evs (initAuctionState requests)]
  rfl

/-- Fixtures for the relay-caller runs: no relay public key configured and
none advertised, so signature validation is skipped. -/
def sampleRelayConfig : RelayConfig := { publicKey := none, minValue := 1, grace := 0 }

/-- Relay service state with trace logging off and slot start time 0. -/
def sampleRelayService : RelayService Nat :=
  { relayPubkeys := [], applicationBuilderDomain := [0], startOfSlot := fun _ => 0,
    traceEnabled := false }

/-- Concrete crypto collaborators. -/
def sampleCrypto : BidCrypto Nat :=
  { parseKey := fun _ => some 0, parseSig := fun s => some s,
    signingRoot := fun r _ => some r, verify := fun _ _ _ => true }

/-- A relay that declines to bid: BuilderBid returns nil with no error. -/
def declineProvider : BidProvider :=
  { address := "relay1", pubkey := none, builderBid := .ok none }

/-- The zero-score response builderBid sends for the declining relay. -/
def declineResp : BidResp := { provider := "relay1", bid := none, score := 0 }

/-- Claim C3 (counterexample): a relay that declines with a nil bid
produces a non-error response on the response channel, yet the completed
auction records no values entry for it: the claim that values contains
exactly one entry for every non-error responder, including zero-score
responders, fails on this input. -/
theorem auction_values_omits_declined_relay :
    builderBidRun sampleRelayService sampleCrypto 1 sampleRelayConfig declineProvider =
      RelaySignal.resp declineResp ∧
    declineResp.bid = none ∧ declineResp.score = 0 ∧
    (runAuction 1 [AuctionEv.resp declineResp]).responded = 1 ∧
    (runAuction 1 [AuctionEv.resp declineResp]).values = [] ∧
    countKey (runAuction 1 [AuctionEv.resp declineResp]).values declineResp.provider = 0 :=
  ⟨rfl, rfl, rfl, rfl, rfl, rfl⟩

/-- bidsEqual holds exactly when both header hash-tree-roots compute and
agree. -/
theorem bidsEqual_true_iff (b1 b2 : BidData) :
    bidsEqual b1 b2 = true ↔
      ∃ hr, b1.headerRoot = some hr ∧ b2.headerRoot = some hr := by
  unfold bidsEqual
  cases h1 : b1.headerRoot with
  | none => simp [h1]
  | some r1 =>
    cases h2 : b2.headerRoot with
    | none => simp [h1, h2]
    | some r2 =>
      simp only [h1, h2, decide_eq_true_eq]
      constructor
      · intro h
        exact ⟨r1, rfl, by rw [h]⟩
      · rintro ⟨hr, hh1, hh2⟩
        cases hh1
        cases hh2
        rfl

/-- Invariant of the fan-in loops: while no winning bid is set providers
is empty; once a winning bid is set, every listed provider carries the
best score and a bid whose header hash-tree-root outcome coincides with
the winner's, and when the winner's header root does not compute,
providers is exactly the winner alone. -/
def providersInv (st : AuctionState) : Prop :=
  match st.resBid with
  | none => st.providers = []
  | some b =>
    (∀ r ∈ st.providers, r.score = st.bestScore ∧
        ∃ rb, r.bid = some rb ∧ rb.headerRoot = b.headerRoot) ∧
    (b.headerRoot = none → st.providers.length = 1)

theorem processResp_providersInv (st : AuctionState) (r : BidResp)
    (h : providersInv st) : providersInv (processResp st r) := by
  unfold processResp
  cases hrb : r.bid with
  | none => simpa [providersInv] using h
  | some bid =>
    simp only [hrb]
    by_cases hlt : st.bestScore < r.score
    · simp only [hlt, if_true]
      constructor
      · intro r2 hr2
        simp only [List.mem_singleton] at hr2
        subst hr2
        exact ⟨rfl, bid, hrb, rfl⟩
      · intro _
        rfl
    · simp only [hlt, if_false]
      cases hres : st.resBid with
      | none =>
        unfold providersInv at h
        rw [hres] at h
        simpa [providersInv, hres] using h
      | some curBid =>
        unfold providersInv at h
        rw [hres] at h
        by_cases hcond : r.score = st.bestScore ∧ bidsEqual curBid bid = true
        · simp only [hcond, and_self, if_true, providersInv, hres]
          obtain ⟨hr, hcr, hbr⟩ := (bidsEqual_true_iff curBid bid).mp hcond.2
          refine ⟨?_, ?_⟩
          · intro r2 hr2
            rw [List.mem_append] at hr2
            cases hr2 with
            | inl hmem => exact h.1 r2 hmem
            | inr hmem =>
              simp only [List.mem_singleton] at hmem
              subst hmem
              exact ⟨hcond.1, bid, hrb, hbr.trans hcr.symm⟩
          · intro hnone
            rw [hcr] at hnone
            exact absurd hnone (by simp)
        · simp only [hcond, if_false, providersInv, hres]
          exact h

/-- providersInv depends only on the winning bid, the best score and the
providers list. -/
theorem providersInv_congr (st st2 : AuctionState) (hb : st2.resBid = st.resBid)
    (hs : st2.bestScore = st.bestScore) (hp : st2.providers = st.providers)
    (h : providersInv st) : providersInv st2 := by
  unfold providersInv at h ⊢
  rw [hb, hs, hp]
  exact h

theorem auctionStep_providersInv (st : AuctionState) (e : AuctionEv)
    (h : providersInv st) : providersInv (auctionStep st e) := by
  cases e with
  | resp r => exact processResp_providersInv st r h
  | err => exact providersInv_congr st _ rfl rfl rfl h
  | soft =>
    refine providersInv_congr st _ ?_ ?_ ?_ h
    · simp only [auctionStep]
      by_cases hr : (0 : Int) < st.responded <;> simp [hr]
    · simp only [auctionStep]
      by_cases hr : (0 : Int) < st.responded <;> simp [hr]
    · simp only [auctionStep]
      by_cases hr : (0 : Int) < st.responded <;> simp [hr]
  | hard => exact providersInv_congr st _ rfl rfl rfl h

theorem runAuction_providersInv (requests : Int) (evs : List AuctionEv) :
    providersInv (runAuction requests evs) := by
  unfold runAuction
  have hgen : ∀ (l : List AuctionEv) (st : AuctionState), providersInv st →
      providersInv (l.foldl auctionStep st) := by
    intro l
    induction l with
    | nil => intro st h; exact h
    | cons e rest ih =>
      intro st h
      exact ih (auctionStep st e) (auctionStep_providersInv st e h)
  apply hgen
  simp [providersInv, initAuctionState]

/-- Claim C6 (amended): for every completed auction with a non-nil
winning bid, every provider recorded in providers carries a score equal
to the final best score and a bid whose header hash-tree-root computation
outcome equals the winning bid's; a bid that merely ties on score under a
different computed header, or a tying bid whose header root cannot be
computed, is never appended.  The winner itself, however, may carry an
uncomputable header root, in which case it is the sole listed provider. -/
theorem auction_providers_match_winner (requests : Int) (evs : List AuctionEv)
    (b : BidData) (h : (runAuction requests evs).resBid = some b) :
    (∀ r ∈ (runAuction requests evs).providers,
        r.score = (runAuction requests evs).bestScore ∧
        ∃ rb, r.bid = some rb ∧ rb.headerRoot = b.headerRoot) ∧
    (b.headerRoot = none → (runAuction requests evs).providers.length = 1) := by
  have hi := runAuction_providersInv requests evs
  unfold providersInv at hi
  rw [h] at hi
  exact hi

/-- A bid with a computable header root that passes every builderBid
check. -/
def goodBid : BidData :=
  { isEmpty := false, value := some 12, feeRecipient := some [1], timestamp := some 0,
    messageRoot := some [2], headerRoot := some [9], signature := some [3],
    marshalOk := true }

/-- The response builderBid sends for goodBid. -/
def goodResp : BidResp := { provider := "relay3", bid := some goodBid, score := 12 }

/-- Witness for the amended C6 theorem at a one-relay auction won by
goodBid. -/
theorem auction_providers_match_winner_witness :
    (∀ r ∈ (runAuction 1 [AuctionEv.resp goodResp]).providers,
        r.score = (runAuction 1 [AuctionEv.resp goodResp]).bestScore ∧
        ∃ rb, r.bid = some rb ∧ rb.headerRoot = goodBid.headerRoot) ∧
    (goodBid.headerRoot = none →
        (runAuction 1 [AuctionEv.resp goodResp]).providers.length = 1) :=
  auction_providers_match_winner 1 [AuctionEv.resp goodResp] goodBid rfl

/-- A bid whose HeaderHashTreeRoot errors but which passes every
builderBid check (signature validation is skipped: no key configured or
advertised). -/
def noRootBid : BidData :=
  { isEmpty := false, value := some 5, feeRecipient := some [1], timestamp := some 0,
    messageRoot := some [2], headerRoot := none, signature := some [3],
    marshalOk := true }

/-- The provider returning noRootBid. -/
def noRootProvider : BidProvider :=
  { address := "relay2", pubkey := none, builderBid := .ok (some noRootBid) }

/-- The response builderBid sends for noRootBid. -/
def noRootResp : BidResp := { provider := "relay2", bid := some noRootBid, score := 5 }

/-- Claim C6 (counterexample): a provider whose bid's header
hash-tree-root cannot be computed wins a one-relay auction and is
recorded in providers, refuting the claim that a provider whose header
root cannot be computed is never in the providers list. -/
theorem auction_providers_keep_uncomputable_root_winner :
    builderBidRun sampleRelayService sampleCrypto 1 sampleRelayConfig noRootProvider =
      RelaySignal.resp noRootResp ∧
    noRootBid.headerRoot = none ∧
    (runAuction 1 [AuctionEv.resp noRootResp]).resBid = some noRootBid ∧
    (runAuction 1 [AuctionEv.resp noRootResp]).providers = [noRootResp] := by
  refine ⟨?_, rfl, ?_, ?_⟩ <;> decide

/-- The uint64 clamp of the source (if modulo < 1 then 1) coincides with
max 1. -/
theorem clamp_eq_max (m : Nat) : (if m < 1 then 1 else m) = max 1 m := by
  cases Nat.eq_zero_or_pos m with
  | inl h0 => subst h0; simp
  | inr hpos => rw [if_neg (by omega), Nat.max_eq_right hpos]

/-- Claim C4: for every account, slot and subcommittee index, when the
selection signer returns sig, isAggregator returns
(n mod modulo == 0, sig) with n the first 8 bytes of the hash of sig read
little-endian and modulo = max(1, SYNC_COMMITTEE_SIZE /
SYNC_COMMITTEE_SUBNET_COUNT / TARGET_AGGREGATORS_PER_SYNC_SUBCOMMITTEE)
under integer division; when the target exceeds the per-subnet committee
size the modulo clamps to 1 and the result is true for every signature.
The positivity hypotheses keep the Nat divisions aligned with Go uint64
division, which would fault on a zero divisor. -/
theorem isAggregator_modulo_spec (s : MsgrService) (deps : MsgrDeps)
    (account slot subcommitteeIndex : Nat) (sig : List Nat)
    (hsub : 0 < s.syncCommitteeSubnetCount)
    (htgt : 0 < s.targetAggregatorsPerSyncCommittee)
    (hsig : deps.signSyncCommitteeSelection account slot subcommitteeIndex =
      Except.ok sig) :
    isAggregator s deps account slot subcommitteeIndex =
      Except.ok (decide (littleEndianUint64 ((deps.sha sig).take 8) %
        max 1 (s.syncCommitteeSize / s.syncCommitteeSubnetCount /
          s.targetAggregatorsPerSyncCommittee) = 0), sig) ∧
    (s.syncCommitteeSize / s.syncCommitteeSubnetCount <
        s.targetAggregatorsPerSyncCommittee →
      isAggregator s deps account slot subcommitteeIndex = Except.ok (true, sig)) := by
  constructor
  · simp only [isAggregator, hsig]
    rw [clamp_eq_max]
  · intro hlt
    simp only [isAggregator, hsig]
    rw [clamp_eq_max, Nat.div_eq_of_lt hlt]
    simp [Nat.mod_one]

/-- Witness for the C4 theorem at mainnet constants (512, 4, 16) and a
signer returning the one-byte signature [1]. -/
theorem isAggregator_modulo_spec_witness :
    isAggregator sampleMsgrService nilRootDeps 0 5 2 =
      Except.ok (decide (littleEndianUint64 ((nilRootDeps.sha [1]).take 8) %
        max 1 (sampleMsgrService.syncCommitteeSize /
          sampleMsgrService.syncCommitteeSubnetCount /
          sampleMsgrService.targetAggregatorsPerSyncCommittee) = 0), [1]) ∧
    (sampleMsgrService.syncCommitteeSize / sampleMsgrService.syncCommitteeSubnetCount <
        sampleMsgrService.targetAggregatorsPerSyncCommittee →
      isAggregator sampleMsgrService nilRootDeps 0 5 2 = Except.ok (true, [1])) :=
  isAggregator_modulo_spec sampleMsgrService nilRootDeps 0 5 2 [1]
    (by decide) (by decide) rfl

/-- When the batch builder returns a batch, no visited triple failed. -/
theorem buildSignedCAPs_ok_all (deps : AggDeps) (slot : Nat) (root : Root)
    (accounts : Nat → Nat) :
    ∀ (pairs : List (Nat × Nat × List Nat)) (batch : List SignedContributionAndProof),
      buildSignedCAPs deps slot root accounts pairs = .ok batch →
      ∀ p ∈ pairs, aggPairFails deps slot root accounts p = false := by
  intro pairs
  induction pairs with
  | nil => intro batch _ p hp; exact absurd hp (List.not_mem_nil p)
  | cons q rest ih =>
    intro batch h p hp
    obtain ⟨vi, si, proof⟩ := q
    cases hc : deps.syncCommitteeContribution slot si root with
    | error e => simp [buildSignedCAPs, hc] at h
    | ok o =>
      cases o with
      | none => simp [buildSignedCAPs, hc] at h
      | some contribution =>
        cases hs : deps.signContributionAndProof (accounts vi)
            { aggregatorIndex := vi, contribution := contribution,
              selectionProof := proof } with
        | error e => simp [buildSignedCAPs, hc, hs] at h
        | ok sig =>
          rcases List.mem_cons.mp hp with hq | hmem
          · subst hq
            simp [aggPairFails, hc, hs]
          · cases hrest : buildSignedCAPs deps slot root accounts rest with
            | error e => simp [buildSignedCAPs, hc, hs, hrest] at h
            | ok sofar => exact ih sofar hrest p hmem

/-- If every visited triple succeeds, the batch builder returns the full
batch, one signed contribution-and-proof per triple in visit order. -/
theorem buildSignedCAPs_all_ok (deps : AggDeps) (slot : Nat) (root : Root)
    (accounts : Nat → Nat) :
    ∀ pairs : List (Nat × Nat × List Nat),
      (∀ p ∈ pairs, aggPairFails deps slot root accounts p = false) →
      buildSignedCAPs deps slot root accounts pairs =
        .ok (pairs.filterMap (aggPairSigned deps slot root accounts)) := by
  intro pairs
  induction pairs with
  | nil => intro _; rfl
  | cons q rest ih =>
    intro hall
    obtain ⟨vi, si, proof⟩ := q
    have hq := hall (vi, si, proof) (List.mem_cons_self _ _)
    cases hc : deps.syncCommitteeContribution slot si root with
    | error e => simp [aggPairFails, hc] at hq
    | ok o =>
      cases o with
      | none => simp [aggPairFails, hc] at hq
      | some contribution =>
        cases hs : deps.signContributionAndProof (accounts vi)
            { aggregatorIndex := vi, contribution := contribution,
              selectionProof := proof } with
        | error e => simp [aggPairFails, hc, hs] at hq
        | ok sig =>
          simp only [buildSignedCAPs, hc, hs,
            ih (fun p hp => hall p (List.mem_cons_of_mem _ hp)),
            List.filterMap_cons, aggPairSigned]

/-- Claim C5: Aggregate is all-or-nothing for a slot: once the root is
acquired, if fetching the contribution fails or returns nil, or signing
fails, for any (validator, subcommittee) pair carrying a selection proof,
the submitter is never invoked; it is invoked, with the full batch, only
when every pair is fetched and signed successfully. -/
theorem aggregate_all_or_nothing (deps : AggDeps) (cache : List (Nat × Root))
    (duty : AggDuty) (root : Root) (cache2 : List (Nat × Root))
    (hroot : takeBeaconBlockRoot cache duty.slot (deps.beaconBlockRoot "head") =
      (some root, cache2)) :
    ((∃ p ∈ aggPairs duty, aggPairFails deps duty.slot root duty.accounts p = true) →
        (aggregateRun deps cache duty).submitted = none) ∧
    ((∀ p ∈ aggPairs duty, aggPairFails deps duty.slot root duty.accounts p = false) →
        (aggregateRun deps cache duty).submitted =
          some ((aggPairs duty).filterMap
            (aggPairSigned deps duty.slot root duty.accounts))) := by
  constructor
  · intro hex
    cases hres : buildSignedCAPs deps duty.slot root duty.accounts (aggPairs duty) with
    | error e => simp only [aggregateRun, hroot, hres]
    | ok batch =>
      obtain ⟨p, hp, hfail⟩ := hex
      rw [buildSignedCAPs_ok_all deps duty.slot root duty.accounts (aggPairs duty)
        batch hres p hp] at hfail
      exact absurd hfail (by simp)
  · intro hall
    simp only [aggregateRun, hroot,
      buildSignedCAPs_all_ok deps duty.slot root duty.accounts (aggPairs duty) hall]
    cases hsub : deps.submitSyncCommitteeContributions
        ((aggPairs duty).filterMap (aggPairSigned deps duty.slot root duty.accounts)) with
    | none => simp [hsub]
    | some e => simp [hsub]

/-- Aggregator collaborators that always succeed. -/
def sampleAggDeps : AggDeps :=
  { beaconBlockRoot := fun _ => .ok (some [4]),
    syncCommitteeContribution := fun _ _ _ => .ok (some 9),
    signContributionAndProof := fun _ _ => .ok [5],
    submitSyncCommitteeContributions := fun _ => none }

/-- A one-validator, one-subcommittee aggregation duty. -/
def sampleAggDuty : AggDuty :=
  { slot := 7, validatorIndices := [1], selectionProofs := fun _ => [(2, [6])],
    accounts := fun _ => 0 }

/-- Witness for the C5 theorem at the concrete duty and collaborators. -/
theorem aggregate_all_or_nothing_witness :
    ((∃ p ∈ aggPairs sampleAggDuty,
        aggPairFails sampleAggDeps sampleAggDuty.slot [4] sampleAggDuty.accounts p = true) →
      (aggregateRun sampleAggDeps [] sampleAggDuty).submitted = none) ∧
    ((∀ p ∈ aggPairs sampleAggDuty,
        aggPairFails sampleAggDeps sampleAggDuty.slot [4] sampleAggDuty.accounts p = false) →
      (aggregateRun sampleAggDeps [] sampleAggDuty).submitted =
        some ((aggPairs sampleAggDuty).filterMap
          (aggPairSigned sampleAggDeps sampleAggDuty.slot [4] sampleAggDuty.accounts))) :=
  aggregate_all_or_nothing sampleAggDeps [] sampleAggDuty [4] [] rfl

/-- Claim C7: the BLS key verifyBidSignature uses is the relay
configuration public key when present, else the provider public key; when
neither is available verification is skipped and the bid is reported
verified with no error, and such a bid passes the signature check in
builderBid (reaching the response channel when the earlier checks
pass). -/
theorem verifyBidSignature_key_selection {PKey : Type} [DecidableEq PKey]
    (s : RelayService PKey) (crypto : BidCrypto PKey) (cfg : RelayConfig)
    (bid : BidData) (prov : BidProvider) (slot : Nat) :
    (∀ raw, cfg.publicKey = some raw →
        verifyBidSignature s crypto cfg bid prov = verifyWithKey s crypto raw bid) ∧
    (∀ raw, cfg.publicKey = none → prov.pubkey = some raw →
        verifyBidSignature s crypto cfg bid prov = verifyWithKey s crypto raw bid) ∧
    (cfg.publicKey = none → prov.pubkey = none →
        verifyBidSignature s crypto cfg bid prov = Except.ok true) ∧
    (cfg.publicKey = none → prov.pubkey = none →
        prov.builderBid = Except.ok (some bid) →
        (s.traceEnabled = false ∨ bid.marshalOk = true) →
        bid.isEmpty = false →
        ∀ v, bid.value = some v → ¬ v = 0 → ¬ v < cfg.minValue →
        ∀ fr, bid.feeRecipient = some fr → ¬ fr = zeroExecutionAddress →
        ∀ ts, bid.timestamp = some ts → ts = s.startOfSlot slot →
        builderBidRun s crypto slot cfg prov =
          RelaySignal.resp { provider := prov.address, bid := some bid, score := v }) := by
  refine ⟨?_, ?_, ?_, ?_⟩
  · intro raw hraw
    simp only [verifyBidSignature, hraw]
  · intro raw hcfg hprov
    simp only [verifyBidSignature, hcfg, hprov]
  · intro hcfg hprov
    simp only [verifyBidSignature, hcfg, hprov]
  · intro hcfg hprov hbb htr hempty v hv hv0 hvmin fr hfr hfrz ts hts htseq
    have hver : verifyBidSignature s crypto cfg bid prov = Except.ok true := by
      simp only [verifyBidSignature, hcfg, hprov]
    have hc1 : ¬ (s.traceEnabled = true ∧ bid.marshalOk = false) := by
      rcases htr with h | h
      · intro hx
        rw [h] at hx
        exact absurd hx.1 (by simp)
      · intro hx
        rw [h] at hx
        exact absurd hx.2 (by simp)
    simp [builderBidRun, hbb, hv, hfr, hts, hver, hempty, hv0, hvmin, hfrz, htseq, hc1]

/-- The provider returning goodBid. -/
def goodProvider : BidProvider :=
  { address := "relay3", pubkey := none, builderBid := .ok (some goodBid) }

/-- Witness for the C7 theorem: with no key configured or advertised the
concrete bid is reported verified and reaches the response channel. -/
theorem verifyBidSignature_key_selection_witness :
    verifyBidSignature sampleRelayService sampleCrypto sampleRelayConfig goodBid
        goodProvider = Except.ok true ∧
    builderBidRun sampleRelayService sampleCrypto 1 sampleRelayConfig goodProvider =
      RelaySignal.resp { provider := "relay3", bid := some goodBid, score := 12 } := by
  have h := verifyBidSignature_key_selection sampleRelayService sampleCrypto
    sampleRelayConfig goodBid goodProvider 1
  exact ⟨h.2.2.1 rfl rfl,
    h.2.2.2 rfl rfl rfl (Or.inl rfl) rfl 12 rfl (by decide) (by decide) [1] rfl
      (by decide) 0 rfl rfl⟩

/-- Messenger collaborators whose beacon node returns the head root [4]
and whose submitter succeeds. -/
def okRootDeps : MsgrDeps :=
  { sha := fun l => l,
    signSyncCommitteeSelection := fun _ _ _ => .ok [1],
    signSyncCommitteeRoot := fun _ _ _ => .ok [2],
    beaconBlockRoot := fun _ => .ok (some [4]),
    submitSyncCommitteeMessages := fun _ => none,
    slotToEpoch := fun slot => slot / 32 }

/-- Claim C8: after a successful Message run the slot-to-root cache holds
exactly one entry for the duty slot, carrying the head root fetched
during that run; the first Aggregate for the slot reads that root and
removes the entry, so a second read finds nothing; and with no entry
present, Aggregate falls back to fetching "head", failing only when the
fallback errors or returns nil. -/
theorem rootcache_handoff (deps : MsgrDeps) (cache : List (Nat × Root)) (d : MsgrDuty)
    (msgs : List SyncMsg)
    (hok : (messageRun deps cache (HandlerInput.duty d)).outcome =
      MessageOutcome.okMsgs msgs) :
    ∃ root, deps.beaconBlockRoot "head" = Except.ok (some root) ∧
      countKey (messageRun deps cache (HandlerInput.duty d)).cache d.slot = 1 ∧
      lookupKey (messageRun deps cache (HandlerInput.duty d)).cache d.slot = some root ∧
      (∀ fetch2 : Except String (Option Root),
        takeBeaconBlockRoot (messageRun deps cache (HandlerInput.duty d)).cache d.slot
            fetch2 =
          (some root,
            eraseKey (messageRun deps cache (HandlerInput.duty d)).cache d.slot)) ∧
      lookupKey (eraseKey (messageRun deps cache (HandlerInput.duty d)).cache d.slot)
        d.slot = none ∧
      (∀ (c2 : List (Nat × Root)) (fetch2 : Except String (Option Root)),
        lookupKey c2 d.slot = none →
          takeBeaconBlockRoot c2 d.slot fetch2 =
            ((match fetch2 with
              | Except.ok (some r) => some r
              | _ => none), c2)) := by
  cases hfetch : deps.beaconBlockRoot "head" with
  | error e => simp [messageRun, assertedDuty, hfetch] at hok
  | ok o =>
    cases o with
    | none => simp [messageRun, assertedDuty, hfetch] at hok
    | some root =>
      have hcache : (messageRun deps cache (HandlerInput.duty d)).cache =
          goInsert cache d.slot root := by
        simp only [messageRun, assertedDuty, hfetch]
        cases hsub : deps.submitSyncCommitteeMessages (messageMsgs deps d root) with
        | none => rfl
        | some e => rfl
      refine ⟨root, rfl, ?_, ?_, ?_, ?_, ?_⟩
      · rw [hcache]
        exact countKey_goInsert_self cache d.slot root
      · rw [hcache]
        exact lookupKey_goInsert_self cache d.slot root
      · intro fetch2
        rw [hcache]
        unfold takeBeaconBlockRoot
        rw [lookupKey_goInsert_self]
      · rw [hcache]
        exact lookupKey_eraseKey_self _ d.slot
      · intro c2 fetch2 hnone
        unfold takeBeaconBlockRoot
        rw [hnone]
        cases fetch2 with
        | error e => rfl
        | ok o2 =>
          cases o2 with
          | none => rfl
          | some r => rfl

/-- Witness for the C8 theorem at a concrete duty, empty initial cache
and collaborators that fetch the root [4] and submit successfully. -/
theorem rootcache_handoff_witness :
    ∃ root, okRootDeps.beaconBlockRoot "head" = Except.ok (some root) ∧
      countKey (messageRun okRootDeps [] (HandlerInput.duty sampleMsgrDuty)).cache
        sampleMsgrDuty.slot = 1 ∧
      lookupKey (messageRun okRootDeps [] (HandlerInput.duty sampleMsgrDuty)).cache
        sampleMsgrDuty.slot = some root ∧
      (∀ fetch2 : Except String (Option Root),
        takeBeaconBlockRoot
            (messageRun okRootDeps [] (HandlerInput.duty sampleMsgrDuty)).cache
            sampleMsgrDuty.slot fetch2 =
          (some root,
            eraseKey (messageRun okRootDeps [] (HandlerInput.duty sampleMsgrDuty)).cache
              sampleMsgrDuty.slot)) ∧
      lookupKey
        (eraseKey (messageRun okRootDeps [] (HandlerInput.duty sampleMsgrDuty)).cache
          sampleMsgrDuty.slot) sampleMsgrDuty.slot = none ∧
      (∀ (c2 : List (Nat × Root)) (fetch2 : Except String (Option Root)),
        lookupKey c2 sampleMsgrDuty.slot = none →
          takeBeaconBlockRoot c2 sampleMsgrDuty.slot fetch2 =
            ((match fetch2 with
              | Except.ok (some r) => some r
              | _ => none), c2)) :=
  rootcache_handoff okRootDeps [] sampleMsgrDuty
    [{ slot := 7, beaconBlockRoot := [4], validatorIndex := 1, signature := [2] }] rfl

/-- Origin of a binding in a map built by a conditional-insert fold: any
key found afterwards was inserted by some list element satisfying the
insert condition, or was already present. -/
theorem foldl_mapbuild_lookup_some
    (f : List (Nat × Option Nat) → (Nat × WalletValidator) → List (Nat × Option Nat))
    (cond : Nat × WalletValidator → Prop) (val : Nat × WalletValidator → Option Nat)
    (hf : ∀ acc iv, (cond iv ∧ f acc iv = goInsert acc iv.1 (val iv)) ∨
      (¬ cond iv ∧ f acc iv = acc))
    (idx : Nat) (a : Option Nat) :
    ∀ (l : List (Nat × WalletValidator)) (acc : List (Nat × Option Nat)),
      lookupKey (l.foldl f acc) idx = some a →
      (∃ iv ∈ l, iv.1 = idx ∧ cond iv ∧ val iv = a) ∨ lookupKey acc idx = some a := by
  intro l
  induction l with
  | nil => intro acc h; exact Or.inr h
  | cons iv rest ih =>
    intro acc h
    rcases ih (f acc iv) h with hmem | hacc
    · obtain ⟨jv, hjv, hrest⟩ := hmem
      exact Or.inl ⟨jv, List.mem_cons_of_mem _ hjv, hrest⟩
    · rcases hf acc iv with ⟨hc, heq⟩ | ⟨_, heq⟩
      · rw [heq] at hacc
        by_cases hkey : iv.1 = idx
        · rw [hkey, lookupKey_goInsert_self] at hacc
          exact Or.inl ⟨iv, List.mem_cons_self _ _, hkey, hc, Option.some.inj hacc⟩
        · rw [lookupKey_goInsert_other acc iv.1 idx (val iv)
            (fun hq => hkey hq.symm)] at hacc
          exact Or.inr hacc
      · rw [heq] at hacc
        exact Or.inr hacc

/-- A conditional-insert fold leaves a key untouched when no list element
with that key satisfies the insert condition. -/
theorem foldl_mapbuild_lookup_skip
    (f : List (Nat × Option Nat) → (Nat × WalletValidator) → List (Nat × Option Nat))
    (cond : Nat × WalletValidator → Prop) (val : Nat × WalletValidator → Option Nat)
    (hf : ∀ acc iv, (cond iv ∧ f acc iv = goInsert acc iv.1 (val iv)) ∨
      (¬ cond iv ∧ f acc iv = acc))
    (idx : Nat) :
    ∀ (l : List (Nat × WalletValidator)) (acc : List (Nat × Option Nat)),
      (∀ iv ∈ l, iv.1 = idx → ¬ cond iv) →
      lookupKey (l.foldl f acc) idx = lookupKey acc idx := by
  intro l
  induction l with
  | nil => intro acc _; rfl
  | cons iv rest ih =>
    intro acc hall
    rw [List.foldl_cons,
      ih (f acc iv) (fun jv hjv => hall jv (List.mem_cons_of_mem _ hjv))]
    rcases hf acc iv with ⟨hc, heq⟩ | ⟨_, heq⟩
    · by_cases hkey : iv.1 = idx
      · exact absurd hc (hall iv (List.mem_cons_self _ _) hkey)
      · rw [heq, lookupKey_goInsert_other acc iv.1 idx (val iv) (fun hq => hkey hq.symm)]
    · rw [heq]

/-- In a list with pairwise-distinct keys, a key determines its value. -/
theorem keyed_unique {γ : Type} :
    ∀ l : List (Nat × γ), (l.map Prod.fst).Nodup →
      ∀ (idx : Nat) (v w : γ), (idx, v) ∈ l → (idx, w) ∈ l → v = w := by
  intro l
  induction l with
  | nil => intro _ idx v w hv _; exact absurd hv (List.not_mem_nil _)
  | cons p rest ih =>
    intro hnodup idx v w hv hw
    rw [List.map_cons, List.nodup_cons] at hnodup
    rcases List.mem_cons.mp hv with hv1 | hv2
    · rcases List.mem_cons.mp hw with hw1 | hw2
      · exact congrArg Prod.snd (hv1.trans hw1.symm)
      · have hkey : p.1 = idx := congrArg Prod.fst hv1.symm
        exact absurd (List.mem_map.mpr ⟨(idx, w), hw2, hkey.symm⟩) hnodup.1
    · rcases List.mem_cons.mp hw with hw1 | hw2
      · have hkey : p.1 = idx := congrArg Prod.fst hw1.symm
        exact absurd (List.mem_map.mpr ⟨(idx, v), hv2, hkey.symm⟩) hnodup.1
      · exact ih hnodup.2 idx v w hv2 hw2

/-- Claim C10: both validating-accounts queries return only accounts
whose validator state evaluated at the given epoch is active-ongoing or
active-exiting; a known validator in any other state never appears in the
returned map; and the ByIndex variant additionally returns no entry for
an index outside the requested list.  The Nodup hypothesis records that
the validators manager returns a Go map, whose keys are distinct. -/
theorem validating_accounts_active_only (s : WalletService) (deps : WalletDeps)
    (epoch : Nat) (indices : List Nat) (idx : Nat)
    (hnodup : ((deps.validatorsByPubKey (s.accounts.map Prod.fst)).map Prod.fst).Nodup) :
    (∀ a, lookupKey (validatingAccountsForEpoch s deps epoch) idx = some a →
      ∃ v, (idx, v) ∈ deps.validatorsByPubKey (s.accounts.map Prod.fst) ∧
        (deps.validatorToState v epoch s.farFutureEpoch = ValidatorState.activeOngoing ∨
         deps.validatorToState v epoch s.farFutureEpoch = ValidatorState.activeExiting) ∧
        a = lookupKey s.accounts v.publicKey) ∧
    (∀ v, (idx, v) ∈ deps.validatorsByPubKey (s.accounts.map Prod.fst) →
      ¬ (deps.validatorToState v epoch s.farFutureEpoch = ValidatorState.activeOngoing ∨
         deps.validatorToState v epoch s.farFutureEpoch = ValidatorState.activeExiting) →
      lookupKey (validatingAccountsForEpoch s deps epoch) idx = none) ∧
    (∀ a, lookupKey (validatingAccountsForEpochByIndex s deps epoch indices) idx =
        some a →
      idx ∈ indices ∧
      ∃ v, (idx, v) ∈ deps.validatorsByPubKey (s.accounts.map Prod.fst) ∧
        (deps.validatorToState v epoch s.farFutureEpoch = ValidatorState.activeOngoing ∨
         deps.validatorToState v epoch s.farFutureEpoch = ValidatorState.activeExiting) ∧
        a = lookupKey s.accounts v.publicKey) ∧
    (∀ v, (idx, v) ∈ deps.validatorsByPubKey (s.accounts.map Prod.fst) →
      ¬ (deps.validatorToState v epoch s.farFutureEpoch = ValidatorState.activeOngoing ∨
         deps.validatorToState v epoch s.farFutureEpoch = ValidatorState.activeExiting) →
      lookupKey (validatingAccountsForEpochByIndex s deps epoch indices) idx = none) ∧
    (idx ∉ indices →
      lookupKey (validatingAccountsForEpochByIndex s deps epoch indices) idx = none) := by
  have hf1 : ∀ (acc : List (Nat × Option Nat)) (iv : Nat × WalletValidator),
      ((deps.validatorToState iv.2 epoch s.farFutureEpoch = ValidatorState.activeOngoing ∨
        deps.validatorToState iv.2 epoch s.farFutureEpoch = ValidatorState.activeExiting) ∧
        (fun acc iv =>
          if deps.validatorToState iv.2 epoch s.farFutureEpoch =
                ValidatorState.activeOngoing ∨
              deps.validatorToState iv.2 epoch s.farFutureEpoch =
                ValidatorState.activeExiting then
            goInsert acc iv.1 (lookupKey s.accounts iv.2.publicKey)
          else acc) acc iv = goInsert acc iv.1 (lookupKey s.accounts iv.2.publicKey)) ∨
      (¬ (deps.validatorToState iv.2 epoch s.farFutureEpoch =
            ValidatorState.activeOngoing ∨
          deps.validatorToState iv.2 epoch s.farFutureEpoch =
            ValidatorState.activeExiting) ∧
        (fun acc iv =>
          if deps.validatorToState iv.2 epoch s.farFutureEpoch =
                ValidatorState.activeOngoing ∨
              deps.validatorToState iv.2 epoch s.farFutureEpoch =
                ValidatorState.activeExiting then
            goInsert acc iv.1 (lookupKey s.accounts iv.2.publicKey)
          else acc) acc iv = acc) := by
    intro acc iv
    by_cases h : deps.validatorToState iv.2 epoch s.farFutureEpoch =
        ValidatorState.activeOngoing ∨
      deps.validatorToState iv.2 epoch s.farFutureEpoch = ValidatorState.activeExiting
    · exact Or.inl ⟨h, by simp [h]⟩
    · exact Or.inr ⟨h, by simp [h]⟩
  have hf2 : ∀ (acc : List (Nat × Option Nat)) (iv : Nat × WalletValidator),
      ((iv.1 ∈ indices ∧
        (deps.validatorToState iv.2 epoch s.farFutureEpoch = ValidatorState.activeOngoing ∨
         deps.validatorToState iv.2 epoch s.farFutureEpoch =
           ValidatorState.activeExiting)) ∧
        (fun acc iv =>
          if iv.1 ∈ indices then
            if deps.validatorToState iv.2 epoch s.farFutureEpoch =
                  ValidatorState.activeOngoing ∨
                deps.validatorToState iv.2 epoch s.farFutureEpoch =
                  ValidatorState.activeExiting then
              goInsert acc iv.1 (lookupKey s.accounts iv.2.publicKey)
            else acc
          else acc) acc iv = goInsert acc iv.1 (lookupKey s.accounts iv.2.publicKey)) ∨
      (¬ (iv.1 ∈ indices ∧
        (deps.validatorToState iv.2 epoch s.farFutureEpoch = ValidatorState.activeOngoing ∨
         deps.validatorToState iv.2 epoch s.farFutureEpoch =
           ValidatorState.activeExiting)) ∧
        (fun acc iv =>
          if iv.1 ∈ indices then
            if deps.validatorToState iv.2 epoch s.farFutureEpoch =
                  ValidatorState.activeOngoing ∨
                deps.validatorToState iv.2 epoch s.farFutureEpoch =
                  ValidatorState.activeExiting then
              goInsert acc iv.1 (lookupKey s.accounts iv.2.publicKey)
            else acc
          else acc) acc iv = acc) := by
    intro acc iv
    by_cases hm : iv.1 ∈ indices
    · by_cases ha : deps.validatorToState iv.2 epoch s.farFutureEpoch =
          ValidatorState.activeOngoing ∨
        deps.validatorToState iv.2 epoch s.farFutureEpoch = ValidatorState.activeExiting
      · exact Or.inl ⟨⟨hm, ha⟩, by simp [hm, ha]⟩
      · exact Or.inr ⟨fun hc => ha hc.2, by simp [hm, ha]⟩
    · exact Or.inr ⟨fun hc => hm hc.1, by simp [hm]⟩
  refine ⟨?_, ?_, ?_, ?_, ?_⟩
  · intro a h
    unfold validatingAccountsForEpoch at h
    rcases foldl_mapbuild_lookup_some _ _ _ hf1 idx a _ _ h with
      ⟨iv, hmem, hkey, hc, hval⟩ | hnil
    · refine ⟨iv.2, ?_, hc, hval.symm⟩
      have : (idx, iv.2) = iv := by rw [← hkey]
      rw [this]
      exact hmem
    · exact absurd hnil (by simp [lookupKey])
  · intro v hv hin
    unfold validatingAccountsForEpoch
    rw [foldl_mapbuild_lookup_skip _ _
      (fun iv => lookupKey s.accounts iv.2.publicKey) hf1 idx _ [] ?_]
    · rfl
    · intro jv hjv hkey hc
      have hjv2 : (idx, jv.2) = jv := by rw [← hkey]
      have := keyed_unique _ hnodup idx jv.2 v (hjv2 ▸ hjv) hv
      rw [this] at hc
      exact hin hc
  · intro a h
    unfold validatingAccountsForEpochByIndex at h
    rcases foldl_mapbuild_lookup_some _ _ _ hf2 idx a _ _ h with
      ⟨iv, hmem, hkey, hc, hval⟩ | hnil
    · refine ⟨hkey ▸ hc.1, iv.2, ?_, hc.2, hval.symm⟩
      have : (idx, iv.2) = iv := by rw [← hkey]
      rw [this]
      exact hmem
    · exact absurd hnil (by simp [lookupKey])
  · intro v hv hin
    unfold validatingAccountsForEpochByIndex
    rw [foldl_mapbuild_lookup_skip _ _
      (fun iv => lookupKey s.accounts iv.2.publicKey) hf2 idx _ [] ?_]
    · rfl
    · intro jv hjv hkey hc
      have hjv2 : (idx, jv.2) = jv := by rw [← hkey]
      have := keyed_unique _ hnodup idx jv.2 v (hjv2 ▸ hjv) hv
      rw [this] at hc
      exact hin hc.2
  · intro hout
    unfold validatingAccountsForEpochByIndex
    rw [foldl_mapbuild_lookup_skip _ _
      (fun iv => lookupKey s.accounts iv.2.publicKey) hf2 idx _ [] ?_]
    · rfl
    · intro jv _ hkey hc
      exact hout (hkey ▸ hc.1)

/-- A wallet holding one account for public key [1]. -/
def sampleWalletService : WalletService := { accounts := [([1], 10)], farFutureEpoch := 99 }

/-- A validators manager knowing one validator at index 3 with that
public key, always evaluated active-ongoing. -/
def sampleWalletDeps : WalletDeps :=
  { validatorsByPubKey := fun _ => [(3, { publicKey := [1], payload := 0 })],
    validatorToState := fun _ _ _ => .activeOngoing }

/-- Witness for the C10 theorem at the one-account wallet, epoch 5,
requested index list [3] and queried index 3. -/
theorem validating_accounts_active_only_witness :
    (∀ a, lookupKey (validatingAccountsForEpoch sampleWalletService sampleWalletDeps 5)
        3 = some a →
      ∃ v, (3, v) ∈ sampleWalletDeps.validatorsByPubKey
          (sampleWalletService.accounts.map Prod.fst) ∧
        (sampleWalletDeps.validatorToState v 5 sampleWalletService.farFutureEpoch =
            ValidatorState.activeOngoing ∨
         sampleWalletDeps.validatorToState v 5 sampleWalletService.farFutureEpoch =
            ValidatorState.activeExiting) ∧
        a = lookupKey sampleWalletService.accounts v.publicKey) ∧
    (∀ v, (3, v) ∈ sampleWalletDeps.validatorsByPubKey
        (sampleWalletService.accounts.map Prod.fst) →
      ¬ (sampleWalletDeps.validatorToState v 5 sampleWalletService.farFutureEpoch =
            ValidatorState.activeOngoing ∨
         sampleWalletDeps.validatorToState v 5 sampleWalletService.farFutureEpoch =
            ValidatorState.activeExiting) →
      lookupKey (validatingAccountsForEpoch sampleWalletService sampleWalletDeps 5) 3 =
        none) ∧
    (∀ a, lookupKey
        (validatingAccountsForEpochByIndex sampleWalletService sampleWalletDeps 5 [3])
        3 = some a →
      3 ∈ [3] ∧
      ∃ v, (3, v) ∈ sampleWalletDeps.validatorsByPubKey
          (sampleWalletService.accounts.map Prod.fst) ∧
        (sampleWalletDeps.validatorToState v 5 sampleWalletService.farFutureEpoch =
            ValidatorState.activeOngoing ∨
         sampleWalletDeps.validatorToState v 5 sampleWalletService.farFutureEpoch =
            ValidatorState.activeExiting) ∧
        a = lookupKey sampleWalletService.accounts v.publicKey) ∧
    (∀ v, (3, v) ∈ sampleWalletDeps.validatorsByPubKey
        (sampleWalletService.accounts.map Prod.fst) →
      ¬ (sampleWalletDeps.validatorToState v 5 sampleWalletService.farFutureEpoch =
            ValidatorState.activeOngoing ∨
         sampleWalletDeps.validatorToState v 5 sampleWalletService.farFutureEpoch =
            ValidatorState.activeExiting) →
      lookupKey
        (validatingAccountsForEpochByIndex sampleWalletService sampleWalletDeps 5 [3])
        3 = none) ∧
    (3 ∉ [3] →
      lookupKey
        (validatingAccountsForEpochByIndex sampleWalletService sampleWalletDeps 5 [3])
        3 = none) :=
  validating_accounts_active_only sampleWalletService sampleWalletDeps 5 [3] 3 (by decide)
